import Mathlib

/-!
Verification of the DirDL browser script (`script.js`).

The script parses a GitHub repository or directory URL, recursively lists
the files under that path through the GitHub contents API, downloads each
file's base64-encoded content, and packs the decoded bytes into a ZIP
archive that is saved client side.

The embedding below translates the script into Lean:

* the `window.prompt` credential loop (lines 1-15) becomes `promptLoop` /
  `tokenStartup`, consuming an explicit list of prompt responses and
  recording every `localStorage.setItem` write;
* `parseGitHubUrl` (lines 63-83) becomes `parseGitHubUrl`, with the two
  JavaScript regexes modelled as explicit scanning matchers (`repoFind`,
  `dirFind`) that try each start position from the left, as a JS regex
  engine does — both character classes in the patterns exclude `/`, so
  captures at a given position are forced and no backtracking arises;
* `fetchDirectoryContents` (lines 85-121) becomes `fetchDir`, running
  against a response tree `RTree` that models what the contents endpoint
  answers for the requested path and for each nested directory.  A
  response is either a non-ok status, an ok response whose JSON body is a
  single (non-array) file object — over which the script's `for ... of`
  loop throws, since a plain object is not iterable — or an ok response
  carrying an array of entries;
* `createAndDownloadZip` (lines 123-212) becomes `createAndDownloadZip`,
  running against an environment mapping each file descriptor to the
  response of its content request; `atob` is the HTML forgiving-base64
  decoder; JSZip's blob generation is abstracted by its resulting size
  (`zipSize`), which is all the script inspects;
* `downloadContent` (lines 27-61) becomes `downloadContent`, composing
  the pipeline; the `try/catch` that logs failures becomes an `Except`
  error result.  All network traffic flows through the `Env` argument,
  so "makes no network call" is expressed as independence from `Env`.

DOM wiring and status logging carry no data flow and are omitted.
-/

namespace DirDL

/-! ### Credential store (script.js lines 1-15)

`while (!isTokenValid && !DIR_DL_TOKEN) { const resp = window.prompt(...);
 if (!resp || resp.length <= 10) { alert(...) } else { DIR_DL_TOKEN = resp;
 localStorage.setItem("DIR_DL_TOKEN", DIR_DL_TOKEN); isTokenValid = true } }`

A prompt response is `none` for a cancelled prompt (JS `null`).  The loop
result is the accepted token (if the supplied responses ever contain one)
together with the list of values written to persistent storage.  JS
rejects a response iff `!resp || resp.length <= 10`; the empty string is
falsy, and its length is `0 ≤ 10`, so rejection is exactly
"cancelled, or at most 10 characters long". -/
def promptLoop : List (Option String) → Option String × List String
  | [] => (none, [])
  | none :: rest => promptLoop rest
  | some s :: rest =>
    if s.length ≤ 10 then promptLoop rest else (some s, [s])

/-- Validity test applied by the loop condition: a prompt response is
accepted iff it was not cancelled and is longer than 10 characters. -/
def validToken : Option String → Bool
  | none => false
  | some s => decide (10 < s.length)

/-- Startup behaviour: `let DIR_DL_TOKEN = localStorage.getItem(...) || null`
followed by the prompt loop.  A stored empty string is falsy in JS and
behaves like no stored token.  Returns the resulting token and the list of
storage writes performed. -/
def tokenStartup (stored : Option String) (prompts : List (Option String)) :
    Option String × List String :=
  match stored with
  | some s => if s = "" then promptLoop prompts else (some s, [])
  | none => promptLoop prompts

/-! ### URL parser (script.js lines 63-83) -/

/-- ASCII whitespace stripped by `String.prototype.trim` (the JS method also
strips some non-ASCII space code points, which never occur in these URLs). -/
def isJsWs (c : Char) : Bool :=
  c = ' ' || c = '\t' || c = '\n' || c = '\r' || c = '\x0b' || c = '\x0c'

/-- Model of `url.trim()`. -/
def trimJs (s : String) : String :=
  (((s.toList.dropWhile isJsWs).reverse.dropWhile isJsWs).reverse).asString

/-- Model of `url.replace(/\/$/, '')`: remove a single trailing slash. -/
def stripSlash (cs : List Char) : List Char :=
  if cs.getLast? = some '/' then cs.dropLast else cs

/-- Leftmost-match scan: try the matcher at position 0, 1, 2, … and return
the first full match, as a JS regex engine does for an unanchored pattern. -/
def scanFind {α : Type} (here : List Char → Option α) : List Char → Option α
  | [] => none
  | c :: cs =>
    match here (c :: cs) with
    | some r => some r
    | none => scanFind here cs

/-- Match of `/github\.com\/([^\/]+)\/([^\/]+)$/` at one start position:
the literal `github.com/`, then a non-empty slash-free owner capture, a
slash, and a non-empty slash-free repo capture that must extend to the end
of the input (the `$` anchor; JS `$` without the `m` flag matches only at
the very end). -/
def repoHere (cs : List Char) : Option (String × String) :=
  if cs.take 11 = "github.com/".toList then
    let r0 := cs.drop 11
    let o := r0.takeWhile (fun c => c != '/')
    match r0.dropWhile (fun c => c != '/') with
    | '/' :: r1 =>
      if o.isEmpty || r1.isEmpty || r1.contains '/' then none
      else some (o.asString, r1.asString)
    | _ => none
  else none

/-- Match of `/github\.com\/([^\/]+)\/([^\/]+)\/tree\/[^\/]+\/?(.*)/` at one
start position: `github.com/`, slash-free owner and repo captures, the
literal `tree/`, a non-empty slash-free branch (which is discarded), an
optional slash, and a path capture `(.*)` running to the end of the input
(`.` does not match a newline in a JS regex without the `s` flag). -/
def dirHere (cs : List Char) : Option (String × String × String) :=
  if cs.take 11 = "github.com/".toList then
    let r0 := cs.drop 11
    let o := r0.takeWhile (fun c => c != '/')
    match r0.dropWhile (fun c => c != '/') with
    | '/' :: r1 =>
      let rp := r1.takeWhile (fun c => c != '/')
      match r1.dropWhile (fun c => c != '/') with
      | '/' :: r2 =>
        if r2.take 5 = "tree/".toList then
          let br := (r2.drop 5).takeWhile (fun c => c != '/')
          if o.isEmpty || rp.isEmpty || br.isEmpty then none
          else
            let rest :=
              match (r2.drop 5).dropWhile (fun c => c != '/') with
              | '/' :: xs => xs
              | xs => xs
            some (o.asString, rp.asString,
              (rest.takeWhile (fun c => c != '\n')).asString)
        else none
      | _ => none
    | _ => none
  else none

/-- `url.match(repoRegex)`, returning the owner/repo captures. -/
def repoFind (cs : List Char) : Option (String × String) :=
  scanFind repoHere cs

/-- `url.match(dirRegex)`, returning the owner/repo/path captures. -/
def dirFind (cs : List Char) : Option (String × String × String) :=
  scanFind dirHere cs

/-- The parsed target: `{ owner, repo, path, isRepo }`. -/
structure Target where
  owner : String
  repo : String
  path : String
  isRepo : Bool
deriving DecidableEq

/-- The error thrown at line 82 for an unparseable URL. -/
inductive ParseErr where
  | invalidUrl
deriving DecidableEq

/-- `parseGitHubUrl` (lines 63-83): strip one trailing slash, try the
whole-repository pattern first, then the branch-subdirectory pattern,
otherwise throw.  A successful repo match yields `path = ''` and
`isRepo = true`; a dir match yields the path capture and `isRepo = false`
(`path || ''` is the identity on the capture, which is already a string). -/
def parseGitHubUrl (url : String) : Except ParseErr Target :=
  let cs := stripSlash url.toList
  match repoFind cs with
  | some (o, r) => Except.ok ⟨o, r, "", true⟩
  | none =>
    match dirFind cs with
    | some (o, r, p) => Except.ok ⟨o, r, p, false⟩
    | none => Except.error ParseErr.invalidUrl

/-! ### Folder name derivation (script.js line 50) -/

/-- `path.split('/')` on the character list. -/
def splitSlashes : List Char → List (List Char)
  | [] => [[]]
  | '/' :: rest => [] :: splitSlashes rest
  | c :: rest =>
    match splitSlashes rest with
    | g :: gs => (c :: g) :: gs
    | [] => [[c]]

/-- `path.split('/').pop() || 'root'`: the last path segment, defaulting to
`"root"` when it is the (falsy) empty string. -/
def lastSeg (path : String) : String :=
  match (splitSlashes path.toList).getLast? with
  | some s => if s.isEmpty then "root" else s.asString
  | none => "root"

/-! ### Directory lister (script.js lines 85-121) -/

/-- The fields of one contents-API entry used by the script:
`item.type`, `item.path`, `item.name`, `item.sha`, `item.size`. -/
structure EMeta where
  type : String
  path : String
  name : String
  sha : String
  size : Nat
deriving DecidableEq

/-- The remote's answer to one contents request, together with the answers
for every nested directory request:

* `fail status` — a response with `response.ok` false and this status;
* `fileObj meta content` — an ok response whose JSON body is a single
  file object (what the endpoint returns when the path denotes a regular
  file rather than a directory);
* `nil` / `cons meta sub rest` — an ok response whose JSON body is an
  array of entries, encoded as a spine: each entry carries its metadata
  `meta`, the remote's answer tree `sub` for a contents request on that
  entry's path (consulted only when the entry's type is `"dir"`), and the
  remaining entries `rest` of the same array.  A spine ending in `fail`
  or `fileObj` does not correspond to any real remote response and is
  excluded by `listsOk` below. -/
inductive RTree where
  | fail (status : Nat)
  | fileObj (meta : EMeta) (content : String)
  | nil
  | cons (meta : EMeta) (sub : RTree) (rest : RTree)
deriving DecidableEq

/-- The file descriptor pushed at lines 109-114:
`{ path: item.path, sha: item.sha, name: item.name, size: item.size }`. -/
structure FileDesc where
  path : String
  sha : String
  name : String
  size : Nat
deriving DecidableEq

/-- Errors thrown by `fetchDirectoryContents`: lines 96-102 map a non-ok
response to one of three errors, and iterating a non-array JSON body with
`for ... of` throws a `TypeError` (a plain object is not iterable). -/
inductive ListErr where
  | auth
  | notFound
  | remoteApi (status : Nat)
  | notIterable
deriving DecidableEq

/-- `fetchDirectoryContents(owner, repo, path, allFiles)` (lines 85-121)
against the response tree for the requested path.  The `allFiles`
accumulator is threaded explicitly; entries typed `"file"` are pushed,
entries typed `"dir"` trigger a recursive call on their subtree, anything
else is skipped; an error anywhere propagates out immediately.  The loop
over the remaining entries of an array body is the recursion on `rest`. -/
def fetchDir : RTree → List FileDesc → Except ListErr (List FileDesc)
  | RTree.fail s, _ =>
    if s = 401 then Except.error ListErr.auth
    else if s = 404 then Except.error ListErr.notFound
    else Except.error (ListErr.remoteApi s)
  | RTree.fileObj _ _, _ => Except.error ListErr.notIterable
  | RTree.nil, acc => Except.ok acc
  | RTree.cons m sub rest, acc =>
    if m.type = "file" then
      fetchDir rest (acc ++ [⟨m.path, m.sha, m.name, m.size⟩])
    else if m.type = "dir" then
      match fetchDir sub acc with
      | Except.ok acc2 => fetchDir rest acc2
      | Except.error e => Except.error e
    else fetchDir rest acc

/-- Specification-side description of the listing (spec §4.2): the flat,
depth-first list of descriptors of every regular file reachable under the
requested path, entries of any other type being omitted. -/
def reachableFiles : RTree → List FileDesc
  | RTree.cons m sub rest =>
    (if m.type = "file" then [⟨m.path, m.sha, m.name, m.size⟩]
     else if m.type = "dir" then reachableFiles sub
     else []) ++ reachableFiles rest
  | _ => []

/-- The response tree "lists successfully": every response the traversal
actually visits is an ok array response. -/
def listsOk : RTree → Bool
  | RTree.fail _ => false
  | RTree.fileObj _ _ => false
  | RTree.nil => true
  | RTree.cons m sub rest =>
    (if m.type = "dir" then listsOk sub else true) && listsOk rest

/-! ### Base64 decoding (`atob`, used at script.js line 162) -/

/-- ASCII whitespace removed by the HTML forgiving-base64 decoder. -/
def isB64Ws (c : Char) : Bool :=
  c = ' ' || c = '\t' || c = '\n' || c = '\x0c' || c = '\r'

/-- The value of one base64 alphabet character. -/
def b64Val (c : Char) : Option Nat :=
  if 'A' ≤ c ∧ c ≤ 'Z' then some (c.toNat - 65)
  else if 'a' ≤ c ∧ c ≤ 'z' then some (c.toNat - 97 + 26)
  else if '0' ≤ c ∧ c ≤ '9' then some (c.toNat - 48 + 52)
  else if c = '+' then some 62
  else if c = '/' then some 63
  else none

/-- Reassemble 6-bit groups into bytes; a trailing group of two sextets
yields one byte and of three sextets yields two bytes, the leftover low
bits being discarded. -/
def sextetsToBytes : List Nat → List Nat
  | a :: b :: c :: d :: rest =>
    (a * 4 + b / 16) :: ((b % 16) * 16 + c / 4) :: ((c % 4) * 64 + d) ::
      sextetsToBytes rest
  | [a, b] => [a * 4 + b / 16]
  | [a, b, c] => [a * 4 + b / 16, (b % 16) * 16 + c / 4]
  | _ => []

/-- Remove up to one trailing `=`. -/
def dropPad (cs : List Char) : List Char :=
  if cs.getLast? = some '=' then cs.dropLast else cs

/-- `window.atob`: the forgiving-base64 decoder.  Remove ASCII whitespace;
if the length is then a multiple of 4, remove up to two trailing padding
characters; fail if the remaining length is ≡ 1 (mod 4) or any character
is outside the base64 alphabet; otherwise emit the decoded bytes as a
binary string (one character per byte).  `none` models the thrown
`InvalidCharacterError`. -/
def atob (s : String) : Option String :=
  let ws := s.toList.filter (fun c => !isB64Ws c)
  let cs := if ws.length % 4 = 0 then dropPad (dropPad ws) else ws
  if cs.length % 4 = 1 then none
  else
    match cs.mapM b64Val with
    | none => none
    | some vals => some ((sextetsToBytes vals).map Char.ofNat).asString

/-- `fileData.content.replace(/\n/g, '')`: strip every embedded newline
from the encoded payload before decoding. -/
def stripNewlines (s : String) : String :=
  (s.toList.filter (fun c => c != '\n')).asString

/-- `charCodeAt` over a binary string: the byte sequence of the decoded
content (every character of an `atob` result is below 256). -/
def strBytes (s : String) : List Nat :=
  s.toList.map Char.toNat

/-! ### Archive builder (script.js lines 123-212) -/

/-- The remote's answer to one per-file content request (lines 147-159):

* `httpErr status` — a response with `response.ok` false (the script then
  throws, and the per-file `catch` swallows the error);
* `netErr` — the fetch itself rejected (network failure), likewise caught;
* `ok content` — an ok response whose JSON carries the given optional
  `content` field. -/
inductive ContentResp where
  | httpErr (status : Nat)
  | netErr
  | ok (content : Option String)

/-- `zip.file(path, bytes)`: JSZip replaces the entry when the path already
exists (keeping its position), otherwise appends it. -/
def zipFile (entries : List (String × List Nat)) (p : String) (b : List Nat) :
    List (String × List Nat) :=
  if entries.any (fun e => e.1 = p) then
    entries.map (fun e => if e.1 = p then (p, b) else e)
  else entries ++ [(p, b)]

/-- The loop state of `createAndDownloadZip`: the JSZip entries and the two
counters of lines 139-141. -/
structure ZipState where
  zipEntries : List (String × List Nat)
  downloadedCount : Nat
  successfulDownloads : Nat
deriving DecidableEq

/-- One iteration of the download loop (lines 143-179).  A non-ok response
throws and is caught (state unchanged); a missing `content` field logs a
warning and only advances `downloadedCount`; otherwise the payload is
newline-stripped, base64-decoded (a decode failure throws and is caught),
and the bytes are stored under the file's full relative path. -/
def processFile (env : FileDesc → ContentResp) (st : ZipState) (f : FileDesc) :
    ZipState :=
  match env f with
  | ContentResp.httpErr _ => st
  | ContentResp.netErr => st
  | ContentResp.ok none => { st with downloadedCount := st.downloadedCount + 1 }
  | ContentResp.ok (some c) =>
    match atob (stripNewlines c) with
    | none => st
    | some bin =>
      { zipEntries := zipFile st.zipEntries f.path (strBytes bin),
        downloadedCount := st.downloadedCount + 1,
        successfulDownloads := st.successfulDownloads + 1 }

/-- The whole download loop. -/
def runLoop (env : FileDesc → ContentResp) (files : List FileDesc)
    (st : ZipState) : ZipState :=
  files.foldl (processFile env) st

/-- A file's fetch is successful iff its content request returns ok with a
`content` field whose newline-stripped payload decodes: exactly the cases
in which line 169 increments `successfulDownloads`. -/
def successfulFetch (env : FileDesc → ContentResp) (f : FileDesc) : Bool :=
  match env f with
  | ContentResp.ok (some c) => (atob (stripNewlines c)).isSome
  | _ => false

/-- Fetching a file fails with a caught exception: a non-ok response, a
network failure, or an `atob` decode error (the missing-`content` case is
not an exception — it is warned about and skipped). -/
def fileFetchFails (env : FileDesc → ContentResp) (f : FileDesc) : Bool :=
  match env f with
  | ContentResp.httpErr _ => true
  | ContentResp.netErr => true
  | ContentResp.ok none => false
  | ContentResp.ok (some c) => (atob (stripNewlines c)).isNone

/-- The byte content the archive stores for a file: the base64 decoding of
its fetched payload after stripping the embedded newlines (junk default
when the file has no payload). -/
def entryBytes (env : FileDesc → ContentResp) (f : FileDesc) : List Nat :=
  match env f with
  | ContentResp.ok (some c) => strBytes ((atob (stripNewlines c)).getD "")
  | _ => []

/-- Errors thrown after the loop: line 182 when no file was successfully
downloaded, line 195 when the generated blob is empty. -/
inductive ZipErr where
  | noFilesDownloaded
  | emptyZip
deriving DecidableEq

/-- `createAndDownloadZip(files, folderName, owner, repo)` (lines 123-212).
The per-file endpoint is the environment `env` (owner/repo only enter the
request URL); JSZip's `generateAsync` is abstracted by the size `zipSize`
of the resulting blob.  On success the entries are saved under the name
`` `${folderName}.zip` `` (line 200). -/
def createAndDownloadZip (zipSize : List (String × List Nat) → Nat)
    (env : FileDesc → ContentResp) (files : List FileDesc)
    (folderName : String) : Except ZipErr (List (String × List Nat) × String) :=
  let st := runLoop env files ⟨[], 0, 0⟩
  if st.successfulDownloads = 0 then Except.error ZipErr.noFilesDownloaded
  else if zipSize st.zipEntries = 0 then Except.error ZipErr.emptyZip
  else Except.ok (st.zipEntries, folderName ++ ".zip")

/-! ### Whole pipeline (script.js lines 27-61) -/

/-- The remote environment of one run: the response tree for the parsed
target's contents request, the per-file content endpoint, and the blob
size JSZip produces for a given set of entries. -/
structure Env where
  tree : RTree
  contents : FileDesc → ContentResp
  zipSize : List (String × List Nat) → Nat

/-- The failure reported by `downloadContent`'s status line: the early
return for empty input (lines 30-33), or the caught error of one of the
pipeline stages. -/
inductive RunErr where
  | emptyInput
  | invalidUrl
  | listFailed (e : ListErr)
  | noFilesFound
  | zipFailed (e : ZipErr)
deriving DecidableEq

/-- `downloadContent` (lines 27-61): trim the input, reject empty input,
parse, list, reject an empty listing (lines 44-47), derive the folder name
(line 50) and build the archive.  Every network interaction goes through
`env`. -/
def downloadContent (env : Env) (input : String) :
    Except RunErr (List (String × List Nat) × String) :=
  let url := trimJs input
  if url = "" then Except.error RunErr.emptyInput
  else
    match parseGitHubUrl url with
    | Except.error _ => Except.error RunErr.invalidUrl
    | Except.ok t =>
      match fetchDir env.tree [] with
      | Except.error e => Except.error (RunErr.listFailed e)
      | Except.ok files =>
        if files.length = 0 then Except.error RunErr.noFilesFound
        else
          let folder :=
            if t.isRepo then t.repo else t.repo ++ "-" ++ lastSeg t.path
          match createAndDownloadZip env.zipSize env.contents files folder with
          | Except.error e => Except.error (RunErr.zipFailed e)
          | Except.ok res => Except.ok res

/-- A small concrete remote: the listing for `acme/widgets` at path
`src/utils` contains one file whose content request returns the base64
payload `"aGk="` (the bytes of `"hi"`). -/
def exEnv : Env where
  tree := RTree.cons ⟨"file", "src/utils/readme.txt", "readme.txt", "sha1", 2⟩
    RTree.nil RTree.nil
  contents := fun _ => ContentResp.ok (some "aGk=")
  zipSize := fun l => l.length

/-- A concrete two-file listing with distinct paths. -/
def exFiles : List FileDesc :=
  [⟨"a.txt", "s1", "a.txt", 1⟩, ⟨"b.txt", "s2", "b.txt", 1⟩]

/-- A concrete content endpoint: `a.txt` succeeds with payload `"aGk="`,
everything else answers with a server error. -/
def exContents : FileDesc → ContentResp := fun f =>
  if f.path = "a.txt" then ContentResp.ok (some "aGk=") else ContentResp.httpErr 500

/-- A content endpoint on which every request fails. -/
def failEnv : FileDesc → ContentResp := fun _ => ContentResp.httpErr 404

/-- A concrete response tree: a file, a submodule entry (neither file nor
dir), and a subdirectory containing one file. -/
def exTree : RTree :=
  RTree.cons ⟨"file", "a.txt", "a.txt", "s1", 1⟩ RTree.nil
    (RTree.cons ⟨"submodule", "vendor", "vendor", "s2", 0⟩ RTree.nil
      (RTree.cons ⟨"dir", "sub", "sub", "s3", 0⟩
        (RTree.cons ⟨"file", "sub/b.txt", "b.txt", "s4", 2⟩ RTree.nil RTree.nil)
        RTree.nil))

/-! ## Supporting lemmas -/

/-- A list cannot end in a character it does not contain. -/
theorem getLast?_ne_of_not_mem {l : List Char} {c : Char} (h : c ∉ l) :
    l.getLast? ≠ some c := by
  intro hc
  obtain ⟨hne, hEq⟩ := List.mem_getLast?_eq_getLast (Option.mem_def.mpr hc)
  exact h (hEq ▸ List.getLast_mem hne)

/-- `takeWhile` over a block of satisfying characters followed by a
stopping character returns exactly the block. -/
theorem takeWhile_append_stop (p : Char → Bool) (xs : List Char) (y : Char)
    (ys : List Char) (hx : ∀ c ∈ xs, p c = true) (hy : p y = false) :
    (xs ++ y :: ys).takeWhile p = xs := by
  induction xs with
  | nil => simp [List.takeWhile_cons, hy]
  | cons a as ih =>
    simp only [List.cons_append, List.takeWhile_cons,
      hx a (List.mem_cons_self a as), if_true]
    rw [ih fun c hc => hx c (List.mem_cons_of_mem _ hc)]

/-- `dropWhile` over a block of satisfying characters followed by a
stopping character returns the stopping character and its tail. -/
theorem dropWhile_append_stop (p : Char → Bool) (xs : List Char) (y : Char)
    (ys : List Char) (hx : ∀ c ∈ xs, p c = true) (hy : p y = false) :
    (xs ++ y :: ys).dropWhile p = y :: ys := by
  induction xs with
  | nil => simp [List.dropWhile_cons, hy]
  | cons a as ih =>
    simp only [List.cons_append, List.dropWhile_cons,
      hx a (List.mem_cons_self a as), if_true]
    exact ih fun c hc => hx c (List.mem_cons_of_mem _ hc)

/-- If the matcher succeeds at some start position, the left-to-right scan
finds a match. -/
theorem scanFind_isSome_of_suffix {α : Type} (here : List Char → Option α) :
    ∀ xs ys : List Char, ys ≠ [] → (here ys).isSome = true →
      (scanFind here (xs ++ ys)).isSome = true := by
  intro xs
  induction xs with
  | nil =>
    intro ys hne hs
    match ys, hne with
    | c :: cs, _ =>
      rw [List.nil_append, scanFind]
      cases h : here (c :: cs) with
      | none => rw [h] at hs; exact absurd hs (by simp)
      | some r => simp
  | cons x xs ih =>
    intro ys hne hs
    rw [List.cons_append, scanFind]
    cases h : here (x :: (xs ++ ys)) with
    | none => exact ih ys hne hs
    | some r => simp

/-- The prompt loop rejects every invalid response without writing to
storage and keeps prompting. -/
theorem promptLoop_all_invalid :
    ∀ prompts : List (Option String), (∀ p ∈ prompts, validToken p = false) →
      promptLoop prompts = (none, []) := by
  intro prompts
  induction prompts with
  | nil => intro _; rfl
  | cons p rest ih =>
    intro h
    have hrest := fun q hq => h q (List.mem_cons_of_mem p hq)
    match p with
    | none => rw [promptLoop]; exact ih hrest
    | some s =>
      have hs : s.length ≤ 10 := by
        have := of_decide_eq_false (h (some s) (List.mem_cons_self _ _))
        omega
      rw [promptLoop, if_pos hs]
      exact ih hrest

/-- The prompt loop accepts the first valid response and persists it. -/
theorem promptLoop_first_valid :
    ∀ (pre : List (Option String)) (s : String) (rest : List (Option String)),
      (∀ p ∈ pre, validToken p = false) → 10 < s.length →
      promptLoop (pre ++ some s :: rest) = (some s, [s]) := by
  intro pre
  induction pre with
  | nil =>
    intro s rest _ hs
    rw [List.nil_append, promptLoop, if_neg (by omega)]
  | cons p ps ih =>
    intro s rest h hs
    have hps := fun q hq => h q (List.mem_cons_of_mem p hq)
    match p with
    | none => rw [List.cons_append, promptLoop]; exact ih s rest hps hs
    | some t =>
      have ht : t.length ≤ 10 := by
        have := of_decide_eq_false (h (some t) (List.mem_cons_self _ _))
        omega
      rw [List.cons_append, promptLoop, if_pos ht]
      exact ih s rest hps hs

/-- On a successfully listing tree, `fetchDir` extends its accumulator by
exactly the depth-first list of reachable regular files. -/
theorem fetchDir_ok_of_listsOk :
    ∀ (t : RTree) (acc : List FileDesc), listsOk t = true →
      fetchDir t acc = Except.ok (acc ++ reachableFiles t) := by
  intro t
  induction t with
  | fail s => intro acc h; rw [listsOk] at h; exact absurd h (by simp)
  | fileObj m co => intro acc h; rw [listsOk] at h; exact absurd h (by simp)
  | nil => intro acc h; simp [fetchDir, reachableFiles]
  | cons m sub rest ihsub ihrest =>
    intro acc h
    rw [listsOk, Bool.and_eq_true] at h
    by_cases hf : m.type = "file"
    · rw [fetchDir, if_pos hf, ihrest _ h.2, reachableFiles, if_pos hf]
      simp
    · by_cases hd : m.type = "dir"
      · have hsub : listsOk sub = true := by
          have := h.1
          rwa [if_pos hd] at this
        rw [fetchDir, if_neg hf, if_pos hd, ihsub _ hsub]
        show fetchDir rest (acc ++ reachableFiles sub) = _
        rw [ihrest _ h.2, reachableFiles, if_neg hf, if_pos hd]
        simp
      · rw [fetchDir, if_neg hf, if_neg hd, ihrest _ h.2,
          reachableFiles, if_neg hf, if_neg hd]
        simp

/-- `fetchDir` returns a list only when every response it visited was an
ok array response. -/
theorem listsOk_of_fetchDir_ok :
    ∀ (t : RTree) (acc fs : List FileDesc),
      fetchDir t acc = Except.ok fs → listsOk t = true := by
  intro t
  induction t with
  | fail s =>
    intro acc fs h
    rw [fetchDir] at h
    split at h
    · exact Except.noConfusion h
    · split at h <;> exact Except.noConfusion h
  | fileObj m co => intro acc fs h; exact Except.noConfusion h
  | nil => intro _ _ _; rfl
  | cons m sub rest ihsub ihrest =>
    intro acc fs h
    rw [listsOk, Bool.and_eq_true]
    by_cases hf : m.type = "file"
    · rw [fetchDir, if_pos hf] at h
      have hdir : ("file" : String) ≠ "dir" := by decide
      rw [if_neg (hf ▸ hdir)]
      exact ⟨rfl, ihrest _ _ h⟩
    · by_cases hd : m.type = "dir"
      · rw [fetchDir, if_neg hf, if_pos hd] at h
        rw [if_pos hd]
        cases hsub : fetchDir sub acc with
        | error e => rw [hsub] at h; exact Except.noConfusion h
        | ok acc2 =>
          rw [hsub] at h
          exact ⟨ihsub _ _ hsub, ihrest _ _ h⟩
      · rw [fetchDir, if_neg hf, if_neg hd] at h
        rw [if_neg hd]
        exact ⟨rfl, ihrest _ _ h⟩

/-- A file whose fetch fails with a caught exception leaves the loop state
untouched. -/
theorem processFile_of_fail (env : FileDesc → ContentResp) (st : ZipState)
    (f : FileDesc) (h : fileFetchFails env f = true) :
    processFile env st f = st := by
  cases he : env f with
  | httpErr s => rw [processFile, he]
  | netErr => rw [processFile, he]
  | ok oc =>
    match oc with
    | none => simp only [fileFetchFails, he] at h; exact absurd h (by simp)
    | some c =>
      simp only [fileFetchFails, he] at h
      cases ha : atob (stripNewlines c) with
      | none => simp only [processFile, he, ha]
      | some bin => rw [ha] at h; exact absurd h (by simp)

/-- Removing a failing file from the work list does not change the loop
result: the failure is caught and the remaining files are processed. -/
theorem runLoop_drop_fail (env : FileDesc → ContentResp)
    (pre post : List FileDesc) (f : FileDesc) (st : ZipState)
    (h : fileFetchFails env f = true) :
    runLoop env (pre ++ f :: post) st = runLoop env (pre ++ post) st := by
  rw [runLoop, runLoop, List.foldl_append, List.foldl_append, List.foldl_cons,
    processFile_of_fail env _ f h]

/-- If no file in the list fetches successfully, the success counter never
moves. -/
theorem runLoop_succ_const (env : FileDesc → ContentResp) :
    ∀ (files : List FileDesc) (st : ZipState),
      (∀ f ∈ files, successfulFetch env f = false) →
      (runLoop env files st).successfulDownloads = st.successfulDownloads := by
  intro files
  induction files with
  | nil => intro st _; rfl
  | cons f rest ih =>
    intro st h
    have hrest := fun g hg => h g (List.mem_cons_of_mem f hg)
    rw [runLoop, List.foldl_cons]
    have step : (runLoop env rest (processFile env st f)).successfulDownloads =
        (processFile env st f).successfulDownloads := ih _ hrest
    rw [runLoop] at step
    rw [step]
    have hf := h f (List.mem_cons_self f rest)
    cases he : env f with
    | httpErr s => rw [processFile, he]
    | netErr => rw [processFile, he]
    | ok oc =>
      match oc with
      | none => simp only [processFile, he]
      | some c =>
        simp only [successfulFetch, he] at hf
        cases ha : atob (stripNewlines c) with
        | none => simp only [processFile, he, ha]
        | some bin => rw [ha] at hf; exact absurd hf (by simp)

/-- `zip.file` appends when the path is not yet present. -/
theorem zipFile_append (entries : List (String × List Nat)) (p : String)
    (b : List Nat) (h : ∀ e ∈ entries, e.1 ≠ p) :
    zipFile entries p b = entries ++ [(p, b)] := by
  rw [zipFile, if_neg]
  intro hany
  rw [List.any_eq_true] at hany
  obtain ⟨e, he, hp⟩ := hany
  exact h e he (of_decide_eq_true hp)

/-- Provided the listed paths are pairwise distinct and none is already in
the archive, the loop appends exactly one entry per successfully fetched
file, keyed by its path and carrying its decoded bytes. -/
theorem runLoop_entries (env : FileDesc → ContentResp) :
    ∀ (files : List FileDesc) (st : ZipState),
      (files.map FileDesc.path).Nodup →
      (∀ f ∈ files, ∀ e ∈ st.zipEntries, e.1 ≠ f.path) →
      (runLoop env files st).zipEntries =
        st.zipEntries ++ (files.filter (fun f => successfulFetch env f)).map
          (fun f => (f.path, entryBytes env f)) := by
  intro files
  induction files with
  | nil => intro st _ _; simp [runLoop]
  | cons f rest ih =>
    intro st hnd hdisj
    rw [List.map_cons, List.nodup_cons] at hnd
    have hrestdisj := fun g hg => hdisj g (List.mem_cons_of_mem f hg)
    rw [runLoop, List.foldl_cons]
    have step : runLoop env rest (processFile env st f) =
        List.foldl (processFile env) (processFile env st f) rest := rfl
    cases he : env f with
    | httpErr s =>
      have hsf : successfulFetch env f = false := by
        simp only [successfulFetch, he]
      rw [← step, ih _ hnd.2 (by rw [processFile, he]; exact hrestdisj),
        processFile, he, List.filter_cons, hsf]
      simp
    | netErr =>
      have hsf : successfulFetch env f = false := by
        simp only [successfulFetch, he]
      rw [← step, ih _ hnd.2 (by rw [processFile, he]; exact hrestdisj),
        processFile, he, List.filter_cons, hsf]
      simp
    | ok oc =>
      match oc with
      | none =>
        have hsf : successfulFetch env f = false := by
          simp only [successfulFetch, he]
        have hsame : (processFile env st f).zipEntries = st.zipEntries := by
          simp only [processFile, he]
        rw [← step, ih _ hnd.2 (by rw [hsame]; exact hrestdisj), hsame,
          List.filter_cons, hsf]
        simp
      | some c =>
        cases ha : atob (stripNewlines c) with
        | none =>
          have hsf : successfulFetch env f = false := by
            simp only [successfulFetch, he, ha, Option.isSome_none]
          have hsame : processFile env st f = st := by
            simp only [processFile, he, ha]
          rw [← step, ih _ hnd.2 (by rw [hsame]; exact hrestdisj), hsame,
            List.filter_cons, hsf]
          simp
        | some bin =>
          have hsf : successfulFetch env f = true := by
            simp only [successfulFetch, he, ha, Option.isSome_some]
          have hent : (processFile env st f).zipEntries =
              st.zipEntries ++ [(f.path, strBytes bin)] := by
            simp only [processFile, he, ha]
            exact zipFile_append _ _ _ (hdisj f (List.mem_cons_self f rest))
          have hdisj2 : ∀ g ∈ rest, ∀ e ∈ (processFile env st f).zipEntries,
              e.1 ≠ g.path := by
            intro g hg e heent
            rw [hent] at heent
            rcases List.mem_append.mp heent with hold | hnew
            · exact hrestdisj g hg e hold
            · rw [List.mem_singleton.mp hnew]
              intro hcontra
              have hcontra' : f.path = g.path := hcontra
              exact hnd.1 (hcontra' ▸ List.mem_map_of_mem FileDesc.path hg)
          have hbytes : entryBytes env f = strBytes bin := by
            simp only [entryBytes, he, ha, Option.getD_some]
          rw [← step, ih _ hnd.2 hdisj2, hent, List.filter_cons, hsf]
          simp [hbytes]

/-- A successful archive build is saved under `folderName ++ ".zip"`. -/
theorem createZip_name (zipSize : List (String × List Nat) → Nat)
    (env : FileDesc → ContentResp) (files : List FileDesc) (folder : String)
    (es : List (String × List Nat)) (nm : String)
    (h : createAndDownloadZip zipSize env files folder = Except.ok (es, nm)) :
    es = (runLoop env files ⟨[], 0, 0⟩).zipEntries ∧ nm = folder ++ ".zip" := by
  rw [createAndDownloadZip] at h
  split at h
  · exact Except.noConfusion h
  · split at h
    · exact Except.noConfusion h
    · injection h with h'
      exact ⟨congrArg Prod.fst h' |>.symm, congrArg Prod.snd h' |>.symm⟩

/-- Characters of a slash-free list test unequal to `'/'`. -/
theorem ne_slash_of_not_mem {l : List Char} (h : '/' ∉ l) :
    ∀ c ∈ l, (c != '/') = true :=
  fun _c hc => bne_iff_ne.mpr fun he => h (he ▸ hc)

/-- `(s ++ t).toList` splits into the two character lists. -/
theorem toList_append (s t : String) : (s ++ t).toList = s.toList ++ t.toList :=
  String.data_append s t

/-- A list not ending in a slash is untouched by the trailing-slash strip. -/
theorem stripSlash_eq_of_getLast_ne {cs : List Char}
    (h : cs.getLast? ≠ some '/') : stripSlash cs = cs := by
  rw [stripSlash, if_neg h]

/-- `getLast?` looks only at a non-empty right append factor. -/
theorem getLast?_append_ne {l₁ l₂ : List Char} (h : l₂ ≠ []) :
    (l₁ ++ l₂).getLast? = l₂.getLast? :=
  List.getLast?_append_of_ne_nil l₁ h

/-- The whole-repository pattern matches at a position followed by
`github.com/` and exactly two non-empty slash-free segments running to the
end of the input. -/
theorem repoHere_hit (o r : List Char) (ho : o ≠ []) (ho2 : '/' ∉ o)
    (hr : r ≠ []) (hr2 : '/' ∉ r) :
    repoHere ("github.com/".toList ++ (o ++ '/' :: r)) =
      some (o.asString, r.asString) := by
  have h1 : (("github.com/".toList ++ (o ++ '/' :: r)).take 11) =
      "github.com/".toList := List.take_left' rfl
  have h2 : (("github.com/".toList ++ (o ++ '/' :: r)).drop 11) =
      o ++ '/' :: r := List.drop_left' rfl
  have h3 : (o ++ '/' :: r).takeWhile (fun c => c != '/') = o :=
    takeWhile_append_stop _ o '/' r (ne_slash_of_not_mem ho2) rfl
  have h4 : (o ++ '/' :: r).dropWhile (fun c => c != '/') = '/' :: r :=
    dropWhile_append_stop _ o '/' r (ne_slash_of_not_mem ho2) rfl
  have h5 : o.isEmpty = false := List.isEmpty_eq_false.mpr ho
  have h6 : r.isEmpty = false := List.isEmpty_eq_false.mpr hr
  have h7 : r.contains '/' = false := by simpa [List.contains] using hr2
  simp only [repoHere, h1, h2, h3, h4, if_pos rfl]
  simp [h5, h6, h7, hr2]

/-- The branch-subdirectory pattern matches at a position followed by
`github.com/`, two non-empty slash-free segments, the literal `tree/` and
a further non-slash character, whatever follows. -/
theorem dirHere_hit (o r br tail : List Char) (ho : o ≠ []) (ho2 : '/' ∉ o)
    (hr : r ≠ []) (hr2 : '/' ∉ r) (hb : br ≠ []) (hb2 : '/' ∉ br) :
    (dirHere ("github.com/".toList ++
      (o ++ '/' :: (r ++ '/' :: ('t' :: 'r' :: 'e' :: 'e' :: '/' ::
        (br ++ tail)))))).isSome = true := by
  have h1 : (("github.com/".toList ++
      (o ++ '/' :: (r ++ '/' :: ('t' :: 'r' :: 'e' :: 'e' :: '/' ::
        (br ++ tail))))).take 11) = "github.com/".toList := List.take_left' rfl
  have h2 : (("github.com/".toList ++
      (o ++ '/' :: (r ++ '/' :: ('t' :: 'r' :: 'e' :: 'e' :: '/' ::
        (br ++ tail))))).drop 11) =
      o ++ '/' :: (r ++ '/' :: ('t' :: 'r' :: 'e' :: 'e' :: '/' ::
        (br ++ tail))) := List.drop_left' rfl
  have h3 : (o ++ '/' :: (r ++ '/' :: ('t' :: 'r' :: 'e' :: 'e' :: '/' ::
      (br ++ tail)))).takeWhile (fun c => c != '/') = o :=
    takeWhile_append_stop _ o '/' _ (ne_slash_of_not_mem ho2) rfl
  have h4 : (o ++ '/' :: (r ++ '/' :: ('t' :: 'r' :: 'e' :: 'e' :: '/' ::
      (br ++ tail)))).dropWhile (fun c => c != '/') =
      '/' :: (r ++ '/' :: ('t' :: 'r' :: 'e' :: 'e' :: '/' :: (br ++ tail))) :=
    dropWhile_append_stop _ o '/' _ (ne_slash_of_not_mem ho2) rfl
  have h5 : (r ++ '/' :: ('t' :: 'r' :: 'e' :: 'e' :: '/' ::
      (br ++ tail))).takeWhile (fun c => c != '/') = r :=
    takeWhile_append_stop _ r '/' _ (ne_slash_of_not_mem hr2) rfl
  have h6 : (r ++ '/' :: ('t' :: 'r' :: 'e' :: 'e' :: '/' ::
      (br ++ tail))).dropWhile (fun c => c != '/') =
      '/' :: ('t' :: 'r' :: 'e' :: 'e' :: '/' :: (br ++ tail)) :=
    dropWhile_append_stop _ r '/' _ (ne_slash_of_not_mem hr2) rfl
  have h7 : (('t' :: 'r' :: 'e' :: 'e' :: '/' :: (br ++ tail)).take 5) =
      "tree/".toList := by
    have : ('t' :: 'r' :: 'e' :: 'e' :: '/' :: (br ++ tail)) =
        "tree/".toList ++ (br ++ tail) := rfl
    rw [this]
    exact List.take_left' rfl
  have h8 : (('t' :: 'r' :: 'e' :: 'e' :: '/' :: (br ++ tail)).drop 5) =
      br ++ tail := by
    have : ('t' :: 'r' :: 'e' :: 'e' :: '/' :: (br ++ tail)) =
        "tree/".toList ++ (br ++ tail) := rfl
    rw [this]
    exact List.drop_left' rfl
  have h9 : ((br ++ tail).takeWhile (fun c => c != '/')).isEmpty = false := by
    match br, hb with
    | b :: br', _ =>
      have hbne : (b != '/') = true :=
        ne_slash_of_not_mem hb2 b (List.mem_cons_self b br')
      rw [List.cons_append, List.takeWhile_cons, if_pos hbne]
      rfl
  have h10 : o.isEmpty = false := List.isEmpty_eq_false.mpr ho
  have h11 : r.isEmpty = false := List.isEmpty_eq_false.mpr hr
  simp only [dirHere, h1, h2, h3, h4, h5, h6, h7, h8, h9, h10, h11,
    if_pos rfl]
  simp

/-- When the repo pattern matches somewhere, the parser returns a
whole-repository target with an empty path. -/
theorem parse_of_repoFind_isSome (url : String)
    (h : (repoFind (stripSlash url.toList)).isSome = true) :
    ∃ o' r', parseGitHubUrl url = Except.ok ⟨o', r', "", true⟩ := by
  obtain ⟨⟨o', r'⟩, hm⟩ := Option.isSome_iff_exists.mp h
  exact ⟨o', r', by simp only [parseGitHubUrl, hm]⟩

/-- When the subdirectory pattern matches somewhere, the parser accepts the
input (one way or the other). -/
theorem parse_ok_of_dirFind_isSome (url : String)
    (h : (dirFind (stripSlash url.toList)).isSome = true) :
    ∃ t, parseGitHubUrl url = Except.ok t := by
  cases hrm : repoFind (stripSlash url.toList) with
  | some pr =>
    obtain ⟨po, pr'⟩ := pr
    exact ⟨⟨po, pr', "", true⟩, by simp only [parseGitHubUrl, hrm]⟩
  | none =>
    obtain ⟨⟨o', r', p'⟩, hdm⟩ := Option.isSome_iff_exists.mp h
    exact ⟨⟨o', r', p', false⟩, by simp only [parseGitHubUrl, hrm, hdm]⟩

/-! ## Claim theorems -/

/-- C1: after a successful run, the archive contains exactly one entry per
successfully fetched file (the listed paths being pairwise distinct, as
remote paths are by construction), keyed by that file's full relative
path from the repository root, and the entry's bytes are the base64
decoding of the fetched payload after stripping its embedded newlines. -/
theorem c1_archive_content (zipSize : List (String × List Nat) → Nat)
    (env : FileDesc → ContentResp) (files : List FileDesc) (folder : String)
    (entries : List (String × List Nat)) (savedName : String)
    (hnd : (files.map FileDesc.path).Nodup)
    (h : createAndDownloadZip zipSize env files folder =
      Except.ok (entries, savedName)) :
    entries = (files.filter (fun f => successfulFetch env f)).map
      (fun f => (f.path, entryBytes env f)) := by
  obtain ⟨hes, _⟩ := createZip_name zipSize env files folder entries savedName h
  rw [hes, runLoop_entries env files ⟨[], 0, 0⟩ hnd
    (fun f _ e he => absurd he (List.not_mem_nil e))]
  simp

/-- Closed instance of C1: of two listed files, only `a.txt` fetches
successfully, and the archive holds exactly its decoded bytes under its
path. -/
theorem c1_witness :
    [("a.txt", [104, 105])] =
      (exFiles.filter (fun f => successfulFetch exContents f)).map
        (fun f => (f.path, entryBytes exContents f)) :=
  c1_archive_content (fun l => l.length) exContents exFiles "widgets"
    [("a.txt", [104, 105])] "widgets.zip" (by decide) rfl

/-- C2: on a remote tree that lists successfully, the lister returns the
flat depth-first list of file descriptors of every regular file reachable
under the requested path, and an entry typed neither `"file"` nor `"dir"`
is silently skipped — it contributes nothing and raises no error. -/
theorem c2_lister_flattens :
    (∀ t : RTree, listsOk t = true →
      fetchDir t [] = Except.ok (reachableFiles t)) ∧
    (∀ (m : EMeta) (sub rest : RTree) (acc : List FileDesc),
      m.type ≠ "file" → m.type ≠ "dir" →
      fetchDir (RTree.cons m sub rest) acc = fetchDir rest acc) := by
  constructor
  · intro t h
    simpa using fetchDir_ok_of_listsOk t [] h
  · intro m sub rest acc h1 h2
    rw [fetchDir, if_neg h1, if_neg h2]

/-- Closed instance of C2: a tree with a file, a submodule and a nested
directory flattens to its two regular files, the submodule being skipped
without error. -/
theorem c2_witness :
    fetchDir exTree [] = Except.ok (reachableFiles exTree) ∧
    fetchDir (RTree.cons ⟨"submodule", "vendor", "vendor", "s2", 0⟩
      RTree.nil RTree.nil) [] = fetchDir RTree.nil [] :=
  ⟨c2_lister_flattens.1 exTree rfl,
   c2_lister_flattens.2 ⟨"submodule", "vendor", "vendor", "s2", 0⟩
     RTree.nil RTree.nil [] (by decide) (by decide)⟩

/-- C3: a failure fetching any single file is caught, does not abort the
loop, and leaves that file absent from the archive while the remaining
files are still processed — removing the failing file from the work list
yields the identical build result; and if no file of a non-empty listing
fetches successfully, the build fails with the no-files-downloaded error
and no archive is finalized. -/
theorem c3_per_file_failures :
    (∀ (zipSize : List (String × List Nat) → Nat)
      (env : FileDesc → ContentResp) (pre post : List FileDesc)
      (f : FileDesc) (folder : String), fileFetchFails env f = true →
      createAndDownloadZip zipSize env (pre ++ f :: post) folder =
        createAndDownloadZip zipSize env (pre ++ post) folder) ∧
    (∀ (zipSize : List (String × List Nat) → Nat)
      (env : FileDesc → ContentResp) (files : List FileDesc)
      (folder : String), files ≠ [] →
      (∀ f ∈ files, successfulFetch env f = false) →
      createAndDownloadZip zipSize env files folder =
        Except.error ZipErr.noFilesDownloaded) := by
  constructor
  · intro zs env pre post f folder h
    simp only [createAndDownloadZip]
    rw [runLoop_drop_fail env pre post f _ h]
  · intro zs env files folder _ h
    simp only [createAndDownloadZip]
    rw [if_pos (runLoop_succ_const env files ⟨[], 0, 0⟩ h)]

/-- Closed instance of C3: with every content request failing, a non-empty
listing produces the no-files-downloaded error. -/
theorem c3_witness :
    createAndDownloadZip (fun l => l.length) failEnv exFiles "widgets" =
      Except.error ZipErr.noFilesDownloaded :=
  c3_per_file_failures.2 (fun l => l.length) failEnv exFiles "widgets"
    (by decide) (by decide)

/-- C4: a non-success listing response maps 401 to the auth error, 404 to
the not-found error and anything else to the remote-API error carrying
the status; the error propagates out of the recursion unchanged, so the
listing aborts with no partial file list, and a returned list implies
every visited response was a successful array response. -/
theorem c4_listing_error_mapping :
    (∀ (s : Nat) (acc : List FileDesc),
      fetchDir (RTree.fail s) acc = Except.error
        (if s = 401 then ListErr.auth
         else if s = 404 then ListErr.notFound
         else ListErr.remoteApi s)) ∧
    (∀ (m : EMeta) (sub rest : RTree) (acc : List FileDesc) (e : ListErr),
      m.type = "dir" → fetchDir sub acc = Except.error e →
      fetchDir (RTree.cons m sub rest) acc = Except.error e) ∧
    (∀ (t : RTree) (acc fs : List FileDesc),
      fetchDir t acc = Except.ok fs → listsOk t = true) := by
  refine ⟨?_, ?_, listsOk_of_fetchDir_ok⟩
  · intro s acc
    rw [fetchDir]
    by_cases h4 : s = 401
    · rw [if_pos h4, if_pos h4]
    · rw [if_neg h4, if_neg h4]
      by_cases h0 : s = 404
      · rw [if_pos h0, if_pos h0]
      · rw [if_neg h0, if_neg h0]
  · intro m sub rest acc e hd hsub
    have hf : m.type ≠ "file" := by rw [hd]; decide
    rw [fetchDir, if_neg hf, if_pos hd, hsub]

/-- Closed instance of C4: a 500 answer inside a subdirectory aborts the
whole listing with the remote-API error carrying 500. -/
theorem c4_witness :
    fetchDir (RTree.cons ⟨"dir", "sub", "sub", "s3", 0⟩ (RTree.fail 500)
      RTree.nil) [] = Except.error (ListErr.remoteApi 500) :=
  c4_listing_error_mapping.2.1 ⟨"dir", "sub", "sub", "s3", 0⟩
    (RTree.fail 500) RTree.nil [] (ListErr.remoteApi 500) rfl
    (by simpa using c4_listing_error_mapping.1 500 [])

/-- C5 (amended): an input matching the whole-repository pattern parses to
`isRepo = true` with empty path; an input matching the subdirectory
pattern and not the whole-repository pattern — the latter is tried first
and takes precedence — parses to `isRepo = false` with exactly the path
captured after the branch segment, the branch itself being discarded. -/
theorem c5_parser_classification :
    (∀ (url o r : String), repoFind (stripSlash url.toList) = some (o, r) →
      parseGitHubUrl url = Except.ok ⟨o, r, "", true⟩) ∧
    (∀ (url o r p : String), repoFind (stripSlash url.toList) = none →
      dirFind (stripSlash url.toList) = some (o, r, p) →
      parseGitHubUrl url = Except.ok ⟨o, r, p, false⟩) ∧
    parseGitHubUrl "https://github.com/acme/widgets" =
      Except.ok ⟨"acme", "widgets", "", true⟩ ∧
    parseGitHubUrl "https://github.com/acme/widgets/tree/main/src/utils" =
      Except.ok ⟨"acme", "widgets", "src/utils", false⟩ := by
  refine ⟨?_, ?_, rfl, rfl⟩
  · intro url o r h
    simp only [parseGitHubUrl, h]
  · intro url o r p h1 h2
    simp only [parseGitHubUrl, h1, h2]

/-- The unamended C5 fails: this input matches the subdirectory pattern
(with captures `a`, `b`, `github.com/x/y`), yet because its tail also
matches the whole-repository pattern — which is tried first — the parser
returns `isRepo = true` with owner `x` and repo `y`, not `isRepo = false`. -/
theorem c5_counterexample :
    dirFind (stripSlash ("github.com/a/b/tree/c/github.com/x/y").toList) =
      some ("a", "b", "github.com/x/y") ∧
    parseGitHubUrl "github.com/a/b/tree/c/github.com/x/y" =
      Except.ok ⟨"x", "y", "", true⟩ := ⟨rfl, rfl⟩

/-- Closed instance of the amended C5 at both example URLs. -/
theorem c5_witness :
    parseGitHubUrl "https://github.com/acme/widgets" =
      Except.ok ⟨"acme", "widgets", "", true⟩ ∧
    parseGitHubUrl "https://github.com/acme/widgets/tree/main/src/utils" =
      Except.ok ⟨"acme", "widgets", "src/utils", false⟩ :=
  ⟨c5_parser_classification.1 "https://github.com/acme/widgets"
      "acme" "widgets" rfl,
   c5_parser_classification.2.1 "https://github.com/acme/widgets/tree/main/src/utils"
      "acme" "widgets" "src/utils" rfl rfl⟩

/-- C6: an input (after trimming and stripping one trailing slash) that
matches neither pattern makes parsing fail with the invalid-URL error,
and the operation performs no network call: its result is the same error
for every remote environment, the whole environment being unused.  (A
blank input is rejected even earlier, before parsing, again touching no
network.) -/
theorem c6_invalid_url_no_network (input : String)
    (h1 : repoFind (stripSlash (trimJs input).toList) = none)
    (h2 : dirFind (stripSlash (trimJs input).toList) = none) :
    parseGitHubUrl (trimJs input) = Except.error ParseErr.invalidUrl ∧
    ∀ env : Env, downloadContent env input = Except.error
      (if trimJs input = "" then RunErr.emptyInput else RunErr.invalidUrl) := by
  have hp : parseGitHubUrl (trimJs input) = Except.error ParseErr.invalidUrl := by
    simp only [parseGitHubUrl, h1, h2]
  refine ⟨hp, fun env => ?_⟩
  by_cases he : trimJs input = ""
  · simp [downloadContent, he]
  · simp only [downloadContent, if_neg he, hp]

/-- Closed instance of C6: a non-GitHub URL is rejected as invalid with the
remote untouched. -/
theorem c6_witness :
    parseGitHubUrl (trimJs "https://example.com/x") =
      Except.error ParseErr.invalidUrl ∧
    downloadContent exEnv "https://example.com/x" =
      Except.error RunErr.invalidUrl := by
  have h := c6_invalid_url_no_network "https://example.com/x" rfl rfl
  exact ⟨h.1, by rw [h.2 exEnv]; exact rfl⟩

/-- C7: a saved archive is named after the parsed target — the repository
name for a whole-repository download, `repo-<last path segment>` (the
segment defaulting to `"root"` on an empty path) for a subdirectory
download — with a `.zip` extension; in particular the example URL yields
an archive named `widgets-utils.zip`. -/
theorem c7_archive_name :
    (∀ (env : Env) (input : String) (entries : List (String × List Nat))
      (savedName : String),
      downloadContent env input = Except.ok (entries, savedName) →
      ∃ t, parseGitHubUrl (trimJs input) = Except.ok t ∧
        savedName = (if t.isRepo then t.repo
          else t.repo ++ "-" ++ lastSeg t.path) ++ ".zip") ∧
    lastSeg "" = "root" ∧
    downloadContent exEnv "https://github.com/acme/widgets/tree/main/src/utils" =
      Except.ok ([("src/utils/readme.txt", [104, 105])], "widgets-utils.zip") := by
  refine ⟨?_, rfl, rfl⟩
  intro env input entries savedName h
  simp only [downloadContent] at h
  split at h
  · exact Except.noConfusion h
  · split at h
    · exact Except.noConfusion h
    · rename_i t hp
      split at h
      · exact Except.noConfusion h
      · rename_i files hfd
        split at h
        · exact Except.noConfusion h
        · split at h
          · exact Except.noConfusion h
          · rename_i res hz
            obtain ⟨es, nm⟩ := res
            injection h with h'
            obtain ⟨_, hnm⟩ := createZip_name env.zipSize env.contents files _
              es nm hz
            refine ⟨t, hp, ?_⟩
            have h2 : nm = savedName := congrArg Prod.snd h'
            rw [← h2, hnm]

/-- Closed instance of C7 at the example URL, via the concrete remote. -/
theorem c7_witness :
    ∃ t, parseGitHubUrl
        (trimJs "https://github.com/acme/widgets/tree/main/src/utils") =
        Except.ok t ∧
      "widgets-utils.zip" = (if t.isRepo then t.repo
        else t.repo ++ "-" ++ lastSeg t.path) ++ ".zip" :=
  c7_archive_name.1 exEnv "https://github.com/acme/widgets/tree/main/src/utils"
    [("src/utils/readme.txt", [104, 105])] "widgets-utils.zip"
    c7_archive_name.2.2

/-- C8: starting with no stored token, every supplied credential of length
at most 10 — a cancelled or empty prompt included — is rejected without
being persisted and the loop keeps prompting, while the first supplied
token longer than 10 characters is accepted and is the only value written
to persistent storage. -/
theorem c8_token_validation :
    (∀ prompts : List (Option String),
      (∀ p ∈ prompts, validToken p = false) →
      tokenStartup none prompts = (none, [])) ∧
    (∀ (pre : List (Option String)) (s : String)
      (rest : List (Option String)),
      (∀ p ∈ pre, validToken p = false) → 10 < s.length →
      tokenStartup none (pre ++ some s :: rest) = (some s, [s])) :=
  ⟨fun prompts h => promptLoop_all_invalid prompts h,
   fun pre s rest h hs => promptLoop_first_valid pre s rest h hs⟩

/-- Closed instance of C8: a cancelled prompt and a 5-character token are
rejected, then a 17-character token is accepted and persisted. -/
theorem c8_witness :
    tokenStartup none [none, some "short", some "averylongtoken123"] =
      (some "averylongtoken123", ["averylongtoken123"]) :=
  c8_token_validation.2 [none, some "short"] "averylongtoken123" []
    (by decide) (by decide)

/-- C9: when the contents endpoint answers with a single-file object, the
lister does not produce a one-element listing: the `for … of` iteration
over the non-array body throws, so the listing — and with it the whole
operation — fails instead of downloading that file. -/
theorem c9_single_file_object (m : EMeta) (c : String)
    (acc : List FileDesc) :
    fetchDir (RTree.fileObj m c) acc = Except.error ListErr.notIterable ∧
    ∀ fs, fetchDir (RTree.fileObj m c) acc ≠ Except.ok fs :=
  ⟨rfl, fun _ h => Except.noConfusion h⟩

/-- Closed instance of C9 at a concrete single-file response. -/
theorem c9_witness :
    fetchDir (RTree.fileObj ⟨"file", "a.txt", "a.txt", "s1", 1⟩ "aGk=") [] =
      Except.error ListErr.notIterable ∧
    fetchDir (RTree.fileObj ⟨"file", "a.txt", "a.txt", "s1", 1⟩ "aGk=") [] ≠
      Except.ok [⟨"a.txt", "s1", "a.txt", 1⟩] :=
  ⟨(c9_single_file_object ⟨"file", "a.txt", "a.txt", "s1", 1⟩ "aGk=" []).1,
   (c9_single_file_object ⟨"file", "a.txt", "a.txt", "s1", 1⟩ "aGk=" []).2 _⟩

/-- `dropLast` acts on a non-empty right append factor. -/
theorem dropLast_append_right {l₁ l₂ : List Char} (h : l₂ ≠ []) :
    (l₁ ++ l₂).dropLast = l₁ ++ l₂.dropLast :=
  List.dropLast_append_of_ne_nil _ h

/-- `dropLast` passes a head character when the tail is non-empty. -/
theorem dropLast_cons_right {c : Char} {l : List Char} (h : l ≠ []) :
    (c :: l).dropLast = c :: l.dropLast := by
  rw [← List.singleton_append, dropLast_append_right h, List.singleton_append]

/-- C10: the parser's patterns are not anchored to the start of the input:
any string ending with `github.com/<owner>/<repo>` (segments non-empty and
slash-free) is accepted as a whole-repository reference, any string
containing `github.com/<owner>/<repo>/tree/<branch>` anywhere is accepted,
and in particular `"see github.com/a/b"` parses as owner `a`, repo `b`
rather than being rejected as invalid. -/
theorem c10_unanchored_patterns :
    (∀ pre o r : String, o.toList ≠ [] → '/' ∉ o.toList →
      r.toList ≠ [] → '/' ∉ r.toList →
      ∃ o' r', parseGitHubUrl (pre ++ "github.com/" ++ o ++ "/" ++ r) =
        Except.ok ⟨o', r', "", true⟩) ∧
    (∀ pre o r br post : String, o.toList ≠ [] → '/' ∉ o.toList →
      r.toList ≠ [] → '/' ∉ r.toList → br.toList ≠ [] → '/' ∉ br.toList →
      ∃ t, parseGitHubUrl
        (pre ++ "github.com/" ++ o ++ "/" ++ r ++ "/tree/" ++ br ++ post) =
        Except.ok t) ∧
    parseGitHubUrl "see github.com/a/b" = Except.ok ⟨"a", "b", "", true⟩ := by
  refine ⟨?_, ?_, rfl⟩
  · intro pre o r ho ho2 hr hr2
    have hL : (pre ++ "github.com/" ++ o ++ "/" ++ r).toList =
        pre.toList ++ ("github.com/".toList ++
          (o.toList ++ '/' :: r.toList)) := by
      simp only [toList_append, List.append_assoc]
      rfl
    have hlast : (pre ++ "github.com/" ++ o ++ "/" ++ r).toList.getLast? ≠
        some '/' := by
      rw [hL, getLast?_append_ne (by simp), getLast?_append_ne (by simp),
        getLast?_append_ne (List.cons_ne_nil '/' r.toList),
        ← List.singleton_append, getLast?_append_ne hr]
      exact getLast?_ne_of_not_mem hr2
    apply parse_of_repoFind_isSome
    rw [stripSlash_eq_of_getLast_ne hlast, hL]
    exact scanFind_isSome_of_suffix repoHere _ _ (by simp)
      (by rw [repoHere_hit o.toList r.toList ho ho2 hr hr2]; rfl)
  · intro pre o r br post ho ho2 hr hr2 hb hb2
    have hL : (pre ++ "github.com/" ++ o ++ "/" ++ r ++ "/tree/" ++ br ++
        post).toList =
        pre.toList ++ ("github.com/".toList ++ (o.toList ++ '/' ::
          (r.toList ++ '/' :: ('t' :: 'r' :: 'e' :: 'e' :: '/' ::
            (br.toList ++ post.toList))))) := by
      simp only [toList_append, List.append_assoc]
      rfl
    apply parse_ok_of_dirFind_isSome
    by_cases hlast : (pre ++ "github.com/" ++ o ++ "/" ++ r ++ "/tree/" ++
        br ++ post).toList.getLast? = some '/'
    · have hpost : post.toList ≠ [] := by
        intro hpe
        rw [hL, hpe, List.append_nil] at hlast
        rw [getLast?_append_ne (by simp), getLast?_append_ne (by simp),
          getLast?_append_ne (List.cons_ne_nil _ _), ← List.singleton_append,
          getLast?_append_ne (by simp),
          getLast?_append_ne (List.cons_ne_nil _ _), ← List.singleton_append,
          getLast?_append_ne (by simp)] at hlast
        have hlast2 : ("tree/".toList ++ br.toList).getLast? = some '/' :=
          hlast
        rw [getLast?_append_ne hb] at hlast2
        exact getLast?_ne_of_not_mem hb2 hlast2
      have hdrop : (pre ++ "github.com/" ++ o ++ "/" ++ r ++ "/tree/" ++
          br ++ post).toList.dropLast =
          pre.toList ++ ("github.com/".toList ++ (o.toList ++ '/' ::
            (r.toList ++ '/' :: ('t' :: 'r' :: 'e' :: 'e' :: '/' ::
              (br.toList ++ post.toList.dropLast))))) := by
        have hbp : br.toList ++ post.toList ≠ [] :=
          fun hq => hpost (List.append_eq_nil.mp hq).2
        rw [hL, dropLast_append_right (by simp), dropLast_append_right (by simp),
          dropLast_append_right (List.cons_ne_nil _ _),
          dropLast_cons_right (by simp [hbp]),
          dropLast_append_right (List.cons_ne_nil _ _),
          dropLast_cons_right (by simp [hbp]),
          dropLast_cons_right (by simp [hbp]),
          dropLast_cons_right (by simp [hbp]),
          dropLast_cons_right (by simp [hbp]),
          dropLast_cons_right (by simp [hbp]),
          dropLast_cons_right hbp,
          dropLast_append_right hpost]
      rw [stripSlash, if_pos hlast, hdrop]
      exact scanFind_isSome_of_suffix dirHere _ _ (by simp)
        (dirHere_hit o.toList r.toList br.toList post.toList.dropLast
          ho ho2 hr hr2 hb hb2)
    · rw [stripSlash_eq_of_getLast_ne hlast, hL]
      exact scanFind_isSome_of_suffix dirHere _ _ (by simp)
        (dirHere_hit o.toList r.toList br.toList post.toList
          ho ho2 hr hr2 hb hb2)

/-- Closed instance of C10: a sentence ending in a repo reference and one
containing a tree reference both parse instead of failing. -/
theorem c10_witness :
    (∃ o' r', parseGitHubUrl ("see " ++ "github.com/" ++ "a" ++ "/" ++ "b") =
      Except.ok ⟨o', r', "", true⟩) ∧
    ∃ t, parseGitHubUrl ("see " ++ "github.com/" ++ "a" ++ "/" ++ "b" ++
      "/tree/" ++ "main" ++ " etc") = Except.ok t :=
  ⟨c10_unanchored_patterns.1 "see " "a" "b" (by decide) (by decide)
      (by decide) (by decide),
   c10_unanchored_patterns.2.1 "see " "a" "b" "main" " etc" (by decide)
      (by decide) (by decide) (by decide) (by decide) (by decide)⟩

end DirDL
